import Mathlib

/-!
Verification of the imapautofiler rule/action/pipeline core.

The definitions below are a shallow embedding of the Python sources:
`imapautofiler/rules.py` (rule engine), `imapautofiler/actions.py`
(action dispatcher) and `imapautofiler/app.py` (`process_rules`
pipeline).  Python exceptions are modelled with `Except String`,
Python's heterogeneous truthy return values with `PyVal`, and the
external collaborators (the stdlib mail-date parser, the jinja2
template engine, the `re` regex engine and the progress tracker) with
small executable models documented at their definitions.
-/

namespace ImapAutofiler

/-- ASCII lower-casing of one character, the portion of `str.lower()`
exercised by header matching. -/
def lowerChar (c : Char) : Char :=
  if 'A' ≤ c ∧ c ≤ 'Z' then Char.ofNat (c.toNat + 32) else c

/-- Model of Python `str.lower()` (ASCII range). -/
def lowerStr (s : String) : String := ⟨s.data.map lowerChar⟩

/-- Does the first list occur at the head of the second? -/
def startsWithL : List Char → List Char → Bool
  | [], _ => true
  | _ :: _, [] => false
  | a :: as, b :: bs => (a = b) && startsWithL as bs

/-- Does `pat` occur contiguously inside the second list?  Model of
Python's `in` operator on strings (the empty pattern is contained in
every string). -/
def containsL (pat : List Char) : List Char → Bool
  | [] => pat.isEmpty
  | c :: rest => startsWithL pat (c :: rest) || containsL pat rest

/-- Model of Python `needle in hay` for strings. -/
def substrOf (needle hay : String) : Bool := containsL needle.data hay.data

/-- A parsed mail message: an ordered list of (header-name, value)
pairs.  Bodies are irrelevant to every claim and are omitted. -/
structure Message where
  headers : List (String × String)
deriving DecidableEq

/-- Modelled from the spec: the repository's `i18n.get_header_value`
helper is not part of the provided sources (only its callers are).
Per the spec, header retrieval is case-insensitive on the header name
and degrades to the empty string when the header is absent - it never
raises.  Decoding of internationalised header values is the identity
in this model. -/
def getHeaderValue (m : Message) (name : String) : String :=
  match m.headers.find? (fun p => lowerStr p.1 == lowerStr name) with
  | some p => p.2
  | none => ""

/-- Model of Python's `name in message` on `email.message.Message`
(case-insensitive presence test), used by `HeaderExists.check`. -/
def hasHeader (m : Message) (name : String) : Bool :=
  m.headers.any (fun p => lowerStr p.1 == lowerStr name)

/-- A Python `datetime` as produced by `email.utils.parsedate_to_datetime`:
the calendar year, the wall-clock time in minutes since the civil epoch,
and the UTC offset in minutes (`none` for a timezone-naive datetime,
as produced for RFC 2822 dates ending in `-0000`). -/
structure PyDateTime where
  year : Int
  wallMinutes : Int
  tz : Option Int
deriving DecidableEq

/-- The absolute (UTC) time of the datetime in minutes; a naive
datetime is read at offset zero. -/
def PyDateTime.awareMinutes (d : PyDateTime) : Int :=
  d.wallMinutes - (d.tz.getD 0)

/-- Split a character list on spaces and commas, dropping empty runs. -/
def tokenizeGo : List Char → List Char → List (List Char)
  | [], acc => if acc.isEmpty then [] else [acc.reverse]
  | c :: rest, acc =>
    if c = ' ' ∨ c = ',' then
      if acc.isEmpty then tokenizeGo rest [] else acc.reverse :: tokenizeGo rest []
    else tokenizeGo rest (c :: acc)

/-- Tokenize a date header into whitespace/comma separated words. -/
def tokenize (l : List Char) : List (List Char) := tokenizeGo l []

/-- Split on a separator character, keeping empty groups. -/
def splitOnChar (sep : Char) : List Char → List (List Char)
  | [] => [[]]
  | c :: rest =>
    let r := splitOnChar sep rest
    if c = sep then [] :: r
    else match r with
      | [] => [[c]]
      | g :: gs => (c :: g) :: gs

/-- Numeric value of an all-digit nonempty character list. -/
def digitsValGo : List Char → Nat → Option Nat
  | [], acc => some acc
  | c :: rest, acc =>
    if c.isDigit then digitsValGo rest (acc * 10 + (c.toNat - 48)) else none

/-- Numeric value of an all-digit nonempty character list, `none` otherwise. -/
def digitsVal : List Char → Option Nat
  | [] => none
  | l => digitsValGo l 0

/-- Month number of an RFC 5322 month abbreviation (case-insensitive). -/
def monthNum (l : List Char) : Option Nat :=
  match (⟨l.map lowerChar⟩ : String) with
  | "jan" => some 1 | "feb" => some 2 | "mar" => some 3 | "apr" => some 4
  | "may" => some 5 | "jun" => some 6 | "jul" => some 7 | "aug" => some 8
  | "sep" => some 9 | "oct" => some 10 | "nov" => some 11 | "dec" => some 12
  | _ => none

/-- Parse `HH:MM` or `HH:MM:SS` into hours and minutes (seconds are
validated but dropped: the development compares times at minute
granularity). -/
def parseTime (l : List Char) : Option (Nat × Nat) :=
  match splitOnChar ':' l with
  | [h, mi] => do
    let hh ← digitsVal h
    let mm ← digitsVal mi
    if hh < 24 ∧ mm < 60 then some (hh, mm) else none
  | [h, mi, s] => do
    let hh ← digitsVal h
    let mm ← digitsVal mi
    let ss ← digitsVal s
    if hh < 24 ∧ mm < 60 ∧ ss < 60 then some (hh, mm) else none
  | _ => none

/-- Parse a `+HHMM`/`-HHMM` zone into a UTC offset in minutes.
`-0000` yields `some none`: the stdlib parser produces a timezone-naive
datetime for it.  Any other shape fails. -/
def parseTzToks : List Char → Option (Option Int)
  | [c, d1, d2, d3, d4] =>
    if (c = '+' ∨ c = '-') ∧ d1.isDigit ∧ d2.isDigit ∧ d3.isDigit ∧ d4.isDigit then
      let hh : Int := Int.ofNat ((d1.toNat - 48) * 10 + (d2.toNat - 48))
      let mm : Int := Int.ofNat ((d3.toNat - 48) * 10 + (d4.toNat - 48))
      let off : Int := hh * 60 + mm
      if c = '-' then
        if off = 0 then some none else some (some (-off))
      else some (some off)
    else none
  | _ => none

/-- Days since 1970-01-01 of a civil date (standard civil-from-days
inverse; exact for the non-negative years the date parser produces). -/
def daysFromCivil (y : Int) (m d : Nat) : Int :=
  let y2 : Int := if m ≤ 2 then y - 1 else y
  let era : Int := (if 0 ≤ y2 then y2 else y2 - 399) / 400
  let yoe : Int := y2 - era * 400
  let mp : Nat := (m + 9) % 12
  let doy : Int := (Int.ofNat (153 * mp + 2)) / 5 + Int.ofNat d - 1
  let doe : Int := yoe * 365 + yoe / 4 - yoe / 100 + doy
  era * 146097 + doe - 719468

/-- Executable model of the external stdlib parser
`email.utils.parsedate_to_datetime`, restricted to the date shapes
this development needs: `[Www, ]DD Mon YYYY HH:MM[:SS] +HHMM` with
single separators.  It returns `none` exactly where the library raises
`TypeError`/`ValueError` (in particular on the empty string), applies
the two-digit-year adjustment of the stdlib, and produces a
timezone-naive result for a `-0000` zone. -/
def parsedateToDatetime (s : String) : Option PyDateTime :=
  let toks := tokenize s.data
  let toks := match toks with
    | t :: rest =>
      match t with
      | c :: _ => if c.isDigit then t :: rest else rest
      | [] => rest
    | [] => []
  match toks with
  | [dayT, monT, yearT, timeT, tzT] => do
    let day ← digitsVal dayT
    let mon ← monthNum monT
    let yraw ← digitsVal yearT
    let y : Nat := if yraw < 69 then yraw + 2000 else if yraw < 100 then yraw + 1900 else yraw
    let hm ← parseTime timeT
    if 1 ≤ day ∧ day ≤ 31 then do
      let tz ← parseTzToks tzT
      some (PyDateTime.mk (Int.ofNat y)
        (daysFromCivil (Int.ofNat y) mon day * 1440 + Int.ofNat (hm.1 * 60 + hm.2)) tz)
    else none
  | _ => none

/-- A Python value as returned by `Rule.check` implementations: the
code mixes `bool` with `int` (`return 0` in `TimeLimit.check`) and an
implicit `return None`. -/
inductive PyVal where
  | bool (b : Bool)
  | int (n : Int)
  | pynone
deriving DecidableEq

/-- Python truthiness of a `PyVal`, as consumed by `if rule.check(message):`
and by `any`/`all`. -/
def PyVal.truthy : PyVal → Bool
  | .bool b => b
  | .int n => decide (n ≠ 0)
  | .pynone => false

/-- Is the value an actual `bool`? -/
def PyVal.isBool : PyVal → Bool
  | .bool _ => true
  | .int _ => false
  | .pynone => false

/-- A header matcher as built by `Headers.__init__`: `HeaderExactValue`,
`HeaderSubString`, or `HeaderRegex`.  The compiled regular expression
of `HeaderRegex` is an external `re` object; it is modelled by its
interface, the boolean `search` predicate on the header value. -/
inductive Matcher where
  | exactValue (name value : String)
  | subString (name value : String)
  | regexM (name : String) (search : String → Bool)

/-- `HeaderExactValue.__init__`: the configured value is lower-cased at
construction time. -/
def mkHeaderExactValue (name rawValue : String) : Matcher :=
  .exactValue name (lowerStr rawValue)

/-- `HeaderSubString.__init__`: the configured substring is lower-cased
at construction time. -/
def mkHeaderSubString (name rawValue : String) : Matcher :=
  .subString name (lowerStr rawValue)

/-- `_HeaderMatcher.check` composed with the `_check_rule` of each
matcher class: fetch the header value (empty for a missing header) and
run the class-specific test.  Exact and substring comparison lower-case
the header value; the regex searches the raw value. -/
def Matcher.mcheck : Matcher → Message → Bool
  | .exactValue n v, m => v == lowerStr (getHeaderValue m n)
  | .subString n v, m => substrOf v (lowerStr (getHeaderValue m n))
  | .regexM n f, m => f (getHeaderValue m n)

/-- The rule tree of `rules.py`.  `recipient` and `is-mailing-list` are
construction-time sugar for `or`-over-`headers` and
`header-exists(list-id)` respectively and need no constructors of their
own.  `stub` is the side-effect-recording test double the spec's §8
testable properties call for: a child whose `check` returns a fixed
outcome, raising when that outcome is an error. -/
inductive MRule where
  | orR (subs : List MRule)
  | andR (subs : List MRule)
  | headersR (matchers : List Matcher)
  | headerExists (name : String)
  | timeLimit (age : Int)
  | stub (out : Except String PyVal)

/-- `TimeLimit.check`: parse the `date` header (failure returns
`False`), force naive dates to UTC, then compare against
`now - age days`.  Faithful to the source, the non-matching branch
returns the integer `0` and a falsy `age` falls off the end of the
function returning `None`. -/
def timeLimitVal (age : Int) (now : Int) (m : Message) : PyVal :=
  match parsedateToDatetime (getHeaderValue m "date") with
  | none => .bool false
  | some d =>
    let d2 := if d.tz.isNone then PyDateTime.mk d.year d.wallMinutes (some 0) else d
    if age ≠ 0 then
      if d2.awareMinutes ≤ now - age * 1440 then .bool true else .int 0
    else .pynone

mutual

/-- `Rule.check` for each rule class of `rules.py`.  `now` models
`datetime.now(timezone.utc)` in minutes.  Raised exceptions are
`Except.error`. -/
def MRule.check (now : Int) (m : Message) : MRule → Except String PyVal
  | .orR subs =>
    if subs.isEmpty then .ok (.bool false)
    else
      match anyCheck now m subs with
      | .error e => .error e
      | .ok b => .ok (.bool b)
  | .andR subs =>
    if subs.isEmpty then .ok (.bool false)
    else
      match allCheck now m subs with
      | .error e => .error e
      | .ok b => .ok (.bool b)
  | .headersR ms =>
    if ms.isEmpty then .ok (.bool false)
    else .ok (.bool (ms.all (fun x => x.mcheck m)))
  | .headerExists n => .ok (.bool (hasHeader m n))
  | .timeLimit age => .ok (timeLimitVal age now m)
  | .stub out => out

/-- Python `any(r.check(message) for r in subs)`: left to right,
stopping at the first truthy child, propagating a raised exception. -/
def anyCheck (now : Int) (m : Message) : List MRule → Except String Bool
  | [] => .ok false
  | r :: rest =>
    match MRule.check now m r with
    | .error e => .error e
    | .ok v => if v.truthy then .ok true else anyCheck now m rest

/-- Python `all(r.check(message) for r in subs)`: left to right,
stopping at the first falsy child, propagating a raised exception. -/
def allCheck (now : Int) (m : Message) : List MRule → Except String Bool
  | [] => .ok true
  | r :: rest =>
    match MRule.check now m r with
    | .error e => .error e
    | .ok v => if v.truthy then allCheck now m rest else .ok false

end

/-- One piece of a jinja2 destination template, restricted to the
shapes the configuration language uses: literal text, a header
substitution, or the derived `date.year` substitution. -/
inductive TemplatePart where
  | lit (s : String)
  | header (name : String)
  | dateYear

/-- A template string is a sequence of parts. -/
abbrev Template := List TemplatePart

/-- The raw, unrendered text of a template part (placeholders keep
their curly-brace syntax). -/
def TemplatePart.raw : TemplatePart → String
  | .lit s => s
  | .header n => "\x7b\x7b " ++ n ++ " \x7d\x7d"
  | .dateYear => "\x7b\x7b date.year \x7d\x7d"

/-- The raw, unrendered template string, as stored in the action's
configuration data. -/
def templateRaw (t : Template) : String := String.join (t.map TemplatePart.raw)

/-- Substitution of one part given the message and the parsed date.
A placeholder for a header absent from the message renders as the
empty string (jinja2 default undefined), like `get_header_value`. -/
def TemplatePart.render (m : Message) (d : PyDateTime) : TemplatePart → String
  | .lit s => s
  | .header n => getHeaderValue m n
  | .dateYear => toString d.year

/-- `_render` from `actions.py`: build the template (a `None` template
text raises `TypeError`), then unconditionally parse the `date` header
with the stdlib parser - raising on failure even when the template
references no placeholder at all - and only then substitute. -/
def renderTemplate (t : Option Template) (m : Message) : Except String String :=
  match t with
  | none => .error "TypeError: template text is None"
  | some tp =>
    match parsedateToDatetime (getHeaderValue m "date") with
    | none => .error "ValueError: unparsable date header"
    | some d => .ok (String.join (tp.map (fun p => p.render m d)))

/-- A side effect issued against the mailbox client by `Action.invoke`. -/
inductive Effect where
  | moveMessage (src dest mid : String) (m : Message)
  | deleteMessage (src mid : String)
  | setFlagged (src mid : String) (b : Bool)
  | setRead (src mid : String) (b : Bool)
deriving DecidableEq

/-- The constructed action objects of `actions.py`.  `flag`/`unflag`
and `mark_read`/`mark_unread` differ only in the boolean they pass to
the client.  A compiled `dest-mailbox-regex` together with its selected
group is modelled by its interface: a partial extraction function on
the header value. -/
inductive MAction where
  | move (dest : Option Template)
  | sortA (header : String) (base : Template) (search : String → Option String)
  | sortByYearA (base : Template)
  | trashA (dest : String)
  | deleteA
  | flagA (b : Bool)
  | markReadA (b : Bool)

/-- Characters matched by the default Sort pattern class (word
characters plus `+` and `-`). -/
def isWordPlus (c : Char) : Bool := c.isAlphanum || c = '_' || c = '+' || c = '-'

/-- Worker for `defaultSortSearch`: `run` holds the reversed current
run of class characters. -/
def defaultSortSearchGo : List Char → List Char → Option String
  | [], _ => none
  | c :: rest, run =>
    if c = '@' then
      if run.isEmpty then defaultSortSearchGo rest []
      else some ⟨run.reverse⟩
    else if isWordPlus c then defaultSortSearchGo rest (c :: run)
    else defaultSortSearchGo rest []

/-- Model of `re.search` with Sort's default pattern (a run of word
characters, `+` or `-`, followed by `@`), returning the first capture
group: the maximal class run preceding the leftmost matching `@`. -/
def defaultSortSearch (s : String) : Option String := defaultSortSearchGo s.data []

/-- Worker for `defaultMLSearch`: `run` holds the reversed run of
non-dot characters since the last dot. -/
def defaultMLSearchGo : List Char → List Char → Option String
  | [], _ => none
  | c :: rest, run =>
    if c = '.' then
      match run.reverse with
      | [] => defaultMLSearchGo rest []
      | r :: rs =>
        if r = '<' ∧ ¬ rs.isEmpty then some ⟨rs⟩ else some (⟨r :: rs⟩ : String)
    else defaultMLSearchGo rest (c :: run)

/-- Model of `re.search` with SortMailingList's default pattern (an
optional `<`, a nonempty dot-free run, then a dot), returning the first
capture group. -/
def defaultMLSearch (s : String) : Option String := defaultMLSearchGo s.data []

/-- `Sort._get_dest_mailbox`: a failed regex search on the configured
header raises; on success the rendered `dest-mailbox-base` (template
rendering may itself raise) is concatenated with the captured group. -/
def sortGetDest (h : String) (base : Template) (search : String → Option String)
    (m : Message) : Except String String :=
  match search (getHeaderValue m h) with
  | none => .error "ValueError: could not determine destination mailbox"
  | some g =>
    match renderTemplate (some base) m with
    | .error e => .error e
    | .ok b => .ok (b ++ g)

/-- `SortByYear._get_dest_mailbox`: parse the `date` header; the
destination is the raw `dest-mailbox-base` string (this override does
not call `_render`) followed by `str(year)`, or by the literal
`unparsable-date` when parsing fails.  It never raises. -/
def sortByYearDest (base : Template) (m : Message) : String :=
  match parsedateToDatetime (getHeaderValue m "date") with
  | some d => templateRaw base ++ toString d.year
  | none => templateRaw base ++ "unparsable-date"

/-- `Action.report` per action class: reporting resolves the
destination mailbox for the move family (and hence can raise), and
merely logs for every other action. -/
def MAction.report : MAction → String → String → Message → Except String Unit
  | .move dest, _, _, m =>
    match renderTemplate dest m with
    | .error e => .error e
    | .ok _ => .ok ()
  | .sortA h base search, _, _, m =>
    match sortGetDest h base search m with
    | .error e => .error e
    | .ok _ => .ok ()
  | .sortByYearA _, _, _, _ => .ok ()
  | .trashA _, _, _, _ => .ok ()
  | .deleteA, _, _, _ => .ok ()
  | .flagA _, _, _, _ => .ok ()
  | .markReadA _, _, _, _ => .ok ()

/-- `Action.invoke` per action class: resolve the destination where
needed and issue the client call. -/
def MAction.invoke : MAction → String → String → Message → Except String Effect
  | .move dest, mb, mid, m =>
    match renderTemplate dest m with
    | .error e => .error e
    | .ok d => .ok (.moveMessage mb d mid m)
  | .sortA h base search, mb, mid, m =>
    match sortGetDest h base search m with
    | .error e => .error e
    | .ok d => .ok (.moveMessage mb d mid m)
  | .sortByYearA base, mb, mid, m => .ok (.moveMessage mb (sortByYearDest base m) mid m)
  | .trashA d, mb, mid, m => .ok (.moveMessage mb d mid m)
  | .deleteA, mb, mid, _ => .ok (.deleteMessage mb mid)
  | .flagA b, mb, mid, _ => .ok (.setFlagged mb mid b)
  | .markReadA b, mb, mid, _ => .ok (.setRead mb mid b)

/-- The fields of an action description consumed by `actions.factory`
and the action constructors.  String-valued destination fields are
carried as templates; their raw text is recovered with `templateRaw`. -/
structure ActionData where
  aname : String
  destMailbox : Option Template
  destMailboxBase : Option Template
  headerA : Option String
  destRegexSearch : Option (String → Option String)

/-- An action description with only a name. -/
def simpleAction (n : String) : ActionData := ActionData.mk n none none none none

/-- A `move` description with a destination template. -/
def moveActionData (dest : Option Template) : ActionData :=
  ActionData.mk "move" dest none none none

/-- The global configuration fields the action constructors consult. -/
structure Config where
  trashMailbox : Option String

/-- `Trash.__init__` falling back to the global `trash-mailbox`
setting; a missing value is a `ValueError`. -/
def trashFromCfg (cfg : Config) : Except String MAction :=
  match cfg.trashMailbox with
  | some s => .ok (.trashA s)
  | none => .error "ValueError: no dest-mailbox or trash-mailbox set in config"

/-- `actions.factory` together with the constructors it dispatches to:
look the action name up in the registry (an unknown or missing name is
a `ValueError`) and run the class constructor, which validates its
configuration.  `Trash` takes the per-action destination unless it is
falsy, else the global one; the Sort family requires a truthy
`dest-mailbox-base`.  (Compile-time validation of a custom regex - zero
or multiple groups - is outside this model, which carries compiled
regexes as functions.)  A rule without an `action` mapping reaches the
factory as an empty description, hence the unknown-name error. -/
def actionsFactory (ad : Option ActionData) (cfg : Config) : Except String MAction :=
  match ad with
  | none => .error "ValueError: unrecognized rule action"
  | some a =>
    if a.aname = "move" then .ok (.move a.destMailbox)
    else if a.aname = "trash" then
      match a.destMailbox with
      | some t => if templateRaw t ≠ "" then .ok (.trashA (templateRaw t)) else trashFromCfg cfg
      | none => trashFromCfg cfg
    else if a.aname = "sort" then
      match a.destMailboxBase with
      | some b =>
        if templateRaw b = "" then .error "ValueError: no dest-mailbox-base given"
        else .ok (.sortA (a.headerA.getD "to") b (a.destRegexSearch.getD defaultSortSearch))
      | none => .error "ValueError: no dest-mailbox-base given"
    else if a.aname = "sort-mailing-list" then
      match a.destMailboxBase with
      | some b =>
        if templateRaw b = "" then .error "ValueError: no dest-mailbox-base given"
        else .ok (.sortA (a.headerA.getD "list-id") b (a.destRegexSearch.getD defaultMLSearch))
      | none => .error "ValueError: no dest-mailbox-base given"
    else if a.aname = "sort-by-year" then
      match a.destMailboxBase with
      | some b =>
        if templateRaw b = "" then .error "ValueError: no dest-mailbox-base given"
        else .ok (.sortByYearA b)
      | none => .error "ValueError: no dest-mailbox-base given"
    else if a.aname = "delete" then .ok .deleteA
    else if a.aname = "flag" then .ok (.flagA true)
    else if a.aname = "unflag" then .ok (.flagA false)
    else if a.aname = "mark_read" then .ok (.markReadA true)
    else if a.aname = "mark_unread" then .ok (.markReadA false)
    else .error "ValueError: unrecognized rule action"

/-- Observable pipeline events: progress/log interactions and client
calls, in program order. -/
inductive Ev where
  | startMailbox (name : String)
  | reported (mb mid : String)
  | invoked (eff : Effect)
  | invokeFailed (mb mid : String)
  | unmatchedMsg (mb mid : String)
  | expunged
  | finishMailbox (name : String)
deriving DecidableEq

/-- Outcome recorded for one message by the pipeline. -/
inductive MsgRes where
  | processed
  | errored
  | unmatched
deriving DecidableEq

/-- One configured mailbox: its name and its ordered rule list, each
rule carrying its optional action description (`get_action`). -/
structure MailboxCfg where
  mname : String
  rules : List (MRule × Option ActionData)

/-- The body of `process_rules` once a rule's `check` came back truthy:
resolve the action with `actions.factory` - outside the try block, so a
construction error propagates - then inside the try block call
`report`, and `invoke` unless in dry-run; a report/invoke exception is
recorded as a per-message error unless debug mode re-raises it. -/
def handleMatch (cfg : Config) (dryRun dbg : Bool) (mb mid : String) (m : Message)
    (ad : Option ActionData) : Except String (MsgRes × List Ev) :=
  match actionsFactory ad cfg with
  | .error e => .error e
  | .ok act =>
    match act.report mb mid m with
    | .error e =>
      if dbg then .error e else .ok (.errored, [.reported mb mid])
    | .ok _ =>
      if dryRun then .ok (.processed, [.reported mb mid])
      else
        match act.invoke mb mid m with
        | .error e =>
          if dbg then .error e
          else .ok (.errored, [.reported mb mid, .invokeFailed mb mid])
        | .ok eff => .ok (.processed, [.reported mb mid, .invoked eff])

/-- The inner rule loop of `process_rules` for one message: scan the
rules in order; the first truthy `check` is handled by `handleMatch`
and the loop breaks; a raising `check` propagates (it is outside the
try block); if no rule matches the message is recorded as unmatched. -/
def processMessage (cfg : Config) (now : Int) (dryRun dbg : Bool)
    (mb mid : String) (m : Message) :
    List (MRule × Option ActionData) → Except String (MsgRes × List Ev)
  | [] => .ok (.unmatched, [.unmatchedMsg mb mid])
  | (r, ad) :: rest =>
    match r.check now m with
    | .error e => .error e
    | .ok v =>
      if v.truthy then handleMatch cfg dryRun dbg mb mid m ad
      else processMessage cfg now dryRun dbg mb mid m rest

/-- The message loop of `process_rules` for one mailbox.  `b` is the
progress tracker's `is_interrupted` poll, modelled as a function of the
number of polls made so far; `q` counts polls.  Before each message the
flag is polled; a set flag breaks out of the loop (the returned boolean
records that the loop was interrupted). -/
def runMessages (cfg : Config) (now : Int) (dryRun dbg : Bool) (b : Nat → Bool)
    (mb : MailboxCfg) : Nat → List (String × Message) →
    Except String (List Ev × Nat × Bool)
  | q, [] => .ok ([], q, false)
  | q, (mid, m) :: rest =>
    if b q then .ok ([], q + 1, true)
    else
      match processMessage cfg now dryRun dbg mb.mname mid m mb.rules with
      | .error e => .error e
      | .ok res =>
        match runMessages cfg now dryRun dbg b mb (q + 1) rest with
        | .error e => .error e
        | .ok (evs2, q2, hit) => .ok (res.2 ++ evs2, q2, hit)

/-- The mailbox loop of `process_rules`: poll the interruption flag
before each mailbox (a set flag stops the run), then run the message
loop, and - whether or not the message loop was interrupted - call
`expunge()` and finish the mailbox before moving on. -/
def runMailboxes (cfg : Config) (now : Int) (dryRun dbg : Bool) (b : Nat → Bool) :
    Nat → List (MailboxCfg × List (String × Message)) →
    Except String (List Ev × Nat)
  | q, [] => .ok ([], q)
  | q, (mb, msgs) :: rest =>
    if b q then .ok ([], q + 1)
    else
      match runMessages cfg now dryRun dbg b mb (q + 1) msgs with
      | .error e => .error e
      | .ok (mevs, q2, _hit) =>
        match runMailboxes cfg now dryRun dbg b q2 rest with
        | .error e => .error e
        | .ok (evs2, q3) =>
          .ok (.startMailbox mb.mname :: mevs ++ [.expunged, .finishMailbox mb.mname] ++ evs2, q3)

/-- `process_rules`: run every configured mailbox, starting with an
unpolled tracker. -/
def processRules (cfg : Config) (now : Int) (dryRun dbg : Bool) (b : Nat → Bool)
    (mailboxes : List (MailboxCfg × List (String × Message))) :
    Except String (List Ev × Nat) :=
  runMailboxes cfg now dryRun dbg b 0 mailboxes

/-- Backend state of one mailbox in the remote (IMAP-like) client:
stored messages, flag and read-state sets, and deletion markers pending
until `expunge`. -/
structure MailboxState where
  msgs : List (String × Message)
  flagged : List String
  readIds : List String
  pending : List String
deriving DecidableEq

/-- A mailbox with no messages and no marks. -/
def emptyBox : MailboxState := MailboxState.mk [] [] [] []

/-- Whole-backend state: the named mailboxes. -/
structure ClientState where
  boxes : List (String × MailboxState)
deriving DecidableEq

/-- Look a mailbox up (an unknown mailbox reads as empty, matching
lazy creation on first copy). -/
def getBox (s : ClientState) (name : String) : MailboxState :=
  match s.boxes.find? (fun p => p.1 == name) with
  | some p => p.2
  | none => emptyBox

/-- Write a mailbox back, creating it if absent. -/
def setBox (s : ClientState) (name : String) (bx : MailboxState) : ClientState :=
  ClientState.mk
    (if s.boxes.any (fun p => p.1 == name)
     then s.boxes.map (fun p => if p.1 == name then (name, bx) else p)
     else s.boxes ++ [(name, bx)])

/-- Add unless present. -/
def addIfAbsent (x : String) (l : List String) : List String :=
  if l.contains x then l else l ++ [x]

/-- Remove every occurrence. -/
def removeAll (x : String) (l : List String) : List String :=
  l.filter (fun y => ! (y == x))

/-- Client-call semantics of the remote backend: a move copies to the
destination and marks the source copy deleted; a delete marks the
message deleted (physical removal is deferred to `expunge`); flag and
read-state calls update the corresponding sets. -/
def applyEffect (s : ClientState) : Effect → ClientState
  | .moveMessage src dest mid m =>
    let s1 := setBox s dest
      (let bx := getBox s dest
       MailboxState.mk (bx.msgs ++ [(mid, m)]) bx.flagged bx.readIds bx.pending)
    setBox s1 src
      (let bx := getBox s1 src
       MailboxState.mk bx.msgs bx.flagged bx.readIds (addIfAbsent mid bx.pending))
  | .deleteMessage src mid =>
    setBox s src
      (let bx := getBox s src
       MailboxState.mk bx.msgs bx.flagged bx.readIds (addIfAbsent mid bx.pending))
  | .setFlagged src mid fl =>
    setBox s src
      (let bx := getBox s src
       MailboxState.mk bx.msgs
         (if fl then addIfAbsent mid bx.flagged else removeAll mid bx.flagged)
         bx.readIds bx.pending)
  | .setRead src mid fl =>
    setBox s src
      (let bx := getBox s src
       MailboxState.mk bx.msgs bx.flagged
         (if fl then addIfAbsent mid bx.readIds else removeAll mid bx.readIds)
         bx.pending)

/-- `expunge` on one mailbox: physically remove the messages marked
deleted and clear the markers. -/
def expungeBoxState (bx : MailboxState) : MailboxState :=
  MailboxState.mk (bx.msgs.filter (fun p => ! bx.pending.contains p.1))
    bx.flagged bx.readIds []

/-- `expunge()` on the client: commit pending deletions. -/
def expungeAll (s : ClientState) : ClientState :=
  ClientState.mk (s.boxes.map (fun p => (p.1, expungeBoxState p.2)))

/-- Backend state change of one pipeline event: only successful
`invoke` calls and `expunge` touch the backend.  (A failed `invoke` may
leave a partial effect behind; no theorem below depends on the state
after one.) -/
def applyEv (s : ClientState) : Ev → ClientState
  | .invoked eff => applyEffect s eff
  | .expunged => expungeAll s
  | _ => s

/-- Backend state after a pipeline event trace. -/
def applyEvents (s : ClientState) (evs : List Ev) : ClientState := evs.foldl applyEv s

/-- No deletions are pending anywhere (the state of a fresh session). -/
def noPending (s : ClientState) : Prop := ∀ p ∈ s.boxes, p.2.pending = []

/-- Is the event an `invoke` call (successful or failed)? -/
def isInvokeCall : Ev → Bool
  | .invoked _ => true
  | .invokeFailed _ _ => true
  | _ => false

/-- Number of `invoke` calls in a trace. -/
def invokeCalls (evs : List Ev) : Nat := evs.countP isInvokeCall

/-- Is the event a `report` call? -/
def isReportCall : Ev → Bool
  | .reported _ _ => true
  | _ => false

/-- Events a dry run may emit: anything except an `invoke` call. -/
def isDryEv : Ev → Bool
  | .invoked _ => false
  | .invokeFailed _ _ => false
  | _ => true

/-- The rule's check returns (does not raise) a falsy value on the
message. -/
def RuleFalsy (now : Int) (m : Message) (r : MRule) : Prop :=
  ∃ v, r.check now m = Except.ok v ∧ v.truthy = false

/-- The rule's check returns (does not raise) a truthy value on the
message. -/
def RuleTruthy (now : Int) (m : Message) (r : MRule) : Prop :=
  ∃ v, r.check now m = Except.ok v ∧ v.truthy = true

/-- Decidable equality on `Except` results, so concrete runs can be
settled by `decide`. -/
instance {ε α : Type} [DecidableEq ε] [DecidableEq α] : DecidableEq (Except ε α) :=
  fun a b =>
    match a, b with
    | .ok x, .ok y =>
      if h : x = y then isTrue (by rw [h])
      else isFalse (fun hc => h (Except.ok.inj hc))
    | .ok _, .error _ => isFalse (fun hc => Except.noConfusion hc)
    | .error _, .ok _ => isFalse (fun hc => Except.noConfusion hc)
    | .error x, .error y =>
      if h : x = y then isTrue (by rw [h])
      else isFalse (fun hc => h (Except.error.inj hc))

/-- A configuration with no global trash mailbox. -/
def cfgNone : Config := Config.mk none

/-- An interruption flag that is never raised. -/
def bFalse : Nat → Bool := fun _ => false

/-- A concrete message whose `date` header parses (2023-12-28 13:47 at
offset -0600; the aware UTC time is minute 28396547 of the epoch). -/
def exMsgDated : Message :=
  Message.mk [("Date", "Thu, 28 Dec 2023 13:47:53 -0600"),
    ("Subject", "Re: hello"), ("To", "recipient1@example.com")]

/-- A concrete message with no `date` header at all. -/
def exMsgNoDate : Message := Message.mk [("Subject", "no date")]

/-- `datetime.now` frozen at the very minute `exMsgDated` was sent
(UTC minute 28396547), so the message is 0 days old. -/
def exNow : Int := 28396547

/-- The claim-side destination computation for `SortByYear`, written
from the claim's words rather than from the source: the RENDERED
`dest-mailbox-base` followed by the year digits (the fallback bucket
keeps the raw base, as rendering cannot succeed without a parsed
date).  Compared against the source's `sortByYearDest`. -/
def sortByYearDestClaim (base : Template) (m : Message) : String :=
  match parsedateToDatetime (getHeaderValue m "date") with
  | some d => String.join (base.map (fun p => p.render m d)) ++ toString d.year
  | none => templateRaw base ++ "unparsable-date"

/-- A concrete backend state: one mailbox with one stored message and
no pending deletions. -/
def exState : ClientState :=
  ClientState.mk [("INBOX", MailboxState.mk [("1", exMsgDated)] [] [] [])]

/-! ## Theorems -/

/-- C4: for every message and every time, calling `check` on a
composite rule with zero children returns false regardless of the
connective: `Or` with an empty sub-rule list, `And` with an empty
sub-rule list, and `Headers` with an empty matcher list all return
false (and none of them raises). -/
theorem check_empty_composite_false (now : Int) (m : Message) :
    MRule.check now m (.orR []) = .ok (.bool false) ∧
    MRule.check now m (.andR []) = .ok (.bool false) ∧
    MRule.check now m (.headersR []) = .ok (.bool false) :=
  ⟨rfl, rfl, rfl⟩

/-- Python `any` over rule checks yields true as soon as a truthy
child is reached, whatever (raising children included) comes after. -/
theorem anyCheck_first_truthy (now : Int) (m : Message)
    (pre : List MRule) (r : MRule) (post : List MRule)
    (hpre : ∀ s ∈ pre, RuleFalsy now m s) (hr : RuleTruthy now m r) :
    anyCheck now m (pre ++ r :: post) = .ok true := by
  induction pre with
  | nil =>
    obtain ⟨v, hv, ht⟩ := hr
    simp [anyCheck, hv, ht]
  | cons s rest ih =>
    obtain ⟨v, hv, hf⟩ := hpre s (by simp)
    have h2 := ih (fun x hx => hpre x (by simp [hx]))
    simp [anyCheck, hv, hf, h2]

/-- Python `all` over rule checks yields false as soon as a falsy
child is reached, whatever (raising children included) comes after. -/
theorem allCheck_first_falsy (now : Int) (m : Message)
    (pre : List MRule) (r : MRule) (post : List MRule)
    (hpre : ∀ s ∈ pre, RuleTruthy now m s) (hr : RuleFalsy now m r) :
    allCheck now m (pre ++ r :: post) = .ok false := by
  induction pre with
  | nil =>
    obtain ⟨v, hv, hf⟩ := hr
    simp [allCheck, hv, hf]
  | cons s rest ih =>
    obtain ⟨v, hv, ht⟩ := hpre s (by simp)
    have h2 := ih (fun x hx => hpre x (by simp [hx]))
    simp [allCheck, hv, ht, h2]

/-- C8: `Or.check` and `And.check` short-circuit left to right: once a
child of `Or` returns truthy the overall check is true no matter what
the remaining children would do (they are never evaluated, so a later
raising child cannot surface); dually, once a child of `And` returns
falsy the overall check is false no matter what the remaining children
would do. -/
theorem or_and_short_circuit (now : Int) (m : Message)
    (pre : List MRule) (r : MRule) (post : List MRule) :
    ((∀ s ∈ pre, RuleFalsy now m s) → RuleTruthy now m r →
      MRule.check now m (.orR (pre ++ r :: post)) = .ok (.bool true)) ∧
    ((∀ s ∈ pre, RuleTruthy now m s) → RuleFalsy now m r →
      MRule.check now m (.andR (pre ++ r :: post)) = .ok (.bool false)) := by
  constructor
  · intro hpre hr
    have h := anyCheck_first_truthy now m pre r post hpre hr
    have hne : (pre ++ r :: post).isEmpty = false := by simp
    simp [MRule.check, hne, h]
  · intro hpre hr
    have h := allCheck_first_falsy now m pre r post hpre hr
    have hne : (pre ++ r :: post).isEmpty = false := by simp
    simp [MRule.check, hne, h]

/-- Witness for C8 at concrete inputs: the tail contains a raising
stub, yet `Or` checks true and `And` checks false. -/
theorem or_and_short_circuit_witness :
    MRule.check 0 (Message.mk [("Subject", "hi")])
      (.orR ([.headerExists "x-none"] ++ .headerExists "subject" :: [.stub (.error "boom")]))
      = .ok (.bool true) ∧
    MRule.check 0 (Message.mk [("Subject", "hi")])
      (.andR ([.headerExists "subject"] ++ .headerExists "x-none" :: [.stub (.error "boom")]))
      = .ok (.bool false) := by
  constructor
  · exact (or_and_short_circuit 0 (Message.mk [("Subject", "hi")])
      [.headerExists "x-none"] (.headerExists "subject") [.stub (.error "boom")]).1
      (by intro s hs; simp at hs; subst hs; exact ⟨.bool false, by decide, rfl⟩)
      ⟨.bool true, by decide, rfl⟩
  · exact (or_and_short_circuit 0 (Message.mk [("Subject", "hi")])
      [.headerExists "subject"] (.headerExists "x-none") [.stub (.error "boom")]).2
      (by intro s hs; simp at hs; subst hs; exact ⟨.bool true, by decide, rfl⟩)
      ⟨.bool false, by decide, rfl⟩

/-- A header absent from the message reads as the empty string. -/
theorem getHeaderValue_absent (m : Message) (name : String)
    (h : hasHeader m name = false) : getHeaderValue m name = "" := by
  unfold hasHeader at h
  unfold getHeaderValue
  rw [List.find?_eq_none.mpr]
  intro x hx
  simpa using List.any_eq_false.mp h x hx

/-- C6 counterexample: against a message lacking the `x-foo` header, a
`HeaderSubString` (or `HeaderExactValue`) matcher configured with the
empty pattern returns TRUE, not false: the missing header degrades to
the empty string, which the empty pattern matches. -/
theorem header_matcher_absent_can_be_true :
    hasHeader (Message.mk [("Subject", "hi")]) "x-foo" = false ∧
    Matcher.mcheck (mkHeaderSubString "x-foo" "") (Message.mk [("Subject", "hi")]) = true ∧
    Matcher.mcheck (mkHeaderExactValue "x-foo" "") (Message.mk [("Subject", "hi")]) = true :=
  ⟨by decide, by decide, by decide⟩

/-- C6 (amended): header matchers never raise against a message in
which the named header is absent; retrieval degrades to the empty
string, so the matcher returns exactly the result of its test on the
empty string: false for a nonempty substring or exact value, and false
for a regex whose search rejects the empty string. -/
theorem header_matcher_absent_false (m : Message) (name v : String)
    (f : String → Bool) (habs : hasHeader m name = false) :
    (v ≠ "" → Matcher.mcheck (.subString name v) m = false) ∧
    (v ≠ "" → Matcher.mcheck (.exactValue name v) m = false) ∧
    (f "" = false → Matcher.mcheck (.regexM name f) m = false) := by
  have hget := getHeaderValue_absent m name habs
  refine ⟨?_, ?_, ?_⟩
  · intro hv
    cases hd : v.data with
    | nil => exact absurd (String.ext (by rw [hd])) hv
    | cons c cs => simp [Matcher.mcheck, hget, substrOf, lowerStr, containsL, hd]
  · intro hv
    have : lowerStr (getHeaderValue m name) = "" := by rw [hget]; rfl
    simp [Matcher.mcheck, this]
    exact hv
  · intro hf
    simp [Matcher.mcheck, hget, hf]

/-- Witness for C6 (amended) at concrete inputs. -/
theorem header_matcher_absent_false_witness :
    Matcher.mcheck (.subString "x-foo" "urgent") (Message.mk [("Subject", "hi")]) = false ∧
    Matcher.mcheck (.exactValue "x-foo" "urgent") (Message.mk [("Subject", "hi")]) = false ∧
    Matcher.mcheck (.regexM "x-foo" (fun s => substrOf "a" s)) (Message.mk [("Subject", "hi")]) = false := by
  have h := header_matcher_absent_false (Message.mk [("Subject", "hi")]) "x-foo" "urgent"
    (fun s => substrOf "a" s) (by decide)
  exact ⟨h.1 (by decide), h.2.1 (by decide), h.2.2 (by decide)⟩

/-- C5: `TimeLimit.check` does not honour the `Rule.check -> bool`
contract.  Evaluated on a message that is 0 days old with a 30-day
limit, the check returns the INTEGER `0` (the source's `return 0`);
with a configured age of 0 it falls off the end and returns `None`.
Both are falsy but neither is a boolean.  (The truthiness consumed by
`if rule.check(message):` still matches the claim's matching rule.) -/
theorem timeLimit_check_returns_nonbool :
    MRule.check exNow exMsgDated (.timeLimit 30) = .ok (.int 0) ∧
    PyVal.isBool (.int 0) = false ∧ PyVal.truthy (.int 0) = false ∧
    MRule.check exNow exMsgDated (.timeLimit 0) = .ok .pynone ∧
    PyVal.isBool .pynone = false ∧
    MRule.check exNow exMsgNoDate (.timeLimit 30) = .ok (.bool false) ∧
    MRule.check (exNow + 50 * 1440) exMsgDated (.timeLimit 30) = .ok (.bool true) :=
  ⟨by decide, rfl, rfl, by decide, rfl, by decide, by decide⟩

/-- C3 counterexample: a `Move` whose destination is the static
literal `archive` (no template placeholder at all) raises from
destination resolution - in both `report` and `invoke` - on a message
with no date header, because `_render` parses the date header
unconditionally. -/
theorem move_static_dest_raises_on_unparsable_date :
    getHeaderValue exMsgNoDate "date" = "" ∧
    MAction.report (.move (some [.lit "archive"])) "INBOX" "1" exMsgNoDate
      = .error "ValueError: unparsable date header" ∧
    MAction.invoke (.move (some [.lit "archive"])) "INBOX" "1" exMsgNoDate
      = .error "ValueError: unparsable date header" :=
  ⟨by decide, by decide, by decide⟩

/-- C3 (amended): for a `Move` whose destination is a static literal,
destination resolution succeeds - `report` and `invoke` do not raise
and the move targets the literal string - for every message whose
`date` header parses; but `_render` parses the date header even for a
placeholder-free template, so a missing, empty or unparsable date
header makes resolution raise regardless of the template's content. -/
theorem move_static_dest_ok_when_date_parses (mb mid s : String) (m : Message)
    (h : (parsedateToDatetime (getHeaderValue m "date")).isSome = true) :
    MAction.report (.move (some [.lit s])) mb mid m = .ok () ∧
    MAction.invoke (.move (some [.lit s])) mb mid m
      = .ok (.moveMessage mb (String.join [s]) mid m) := by
  obtain ⟨d, hd⟩ := Option.isSome_iff_exists.mp h
  constructor
  · simp [MAction.report, renderTemplate, hd]
  · simp [MAction.invoke, renderTemplate, hd, TemplatePart.render]

/-- Witness for C3 (amended) at a concrete dated message. -/
theorem move_static_dest_ok_witness :
    MAction.report (.move (some [.lit "archive"])) "INBOX" "1" exMsgDated = .ok () ∧
    MAction.invoke (.move (some [.lit "archive"])) "INBOX" "1" exMsgDated
      = .ok (.moveMessage "INBOX" (String.join ["archive"]) "1" exMsgDated) :=
  move_static_dest_ok_when_date_parses "INBOX" "1" "archive" exMsgDated (by decide)

/-- C9 counterexample: `SortByYear._get_dest_mailbox` concatenates the
RAW `dest-mailbox-base` with the year - it does not render the base.
With base text `(placeholder for the subject header)` on a dated
message the code's destination keeps the placeholder syntax while the
claim's rendered destination substitutes the subject. -/
theorem sortByYear_base_not_rendered :
    sortByYearDest [.header "subject"] exMsgDated = "\x7b\x7b subject \x7d\x7d2023" ∧
    sortByYearDestClaim [.header "subject"] exMsgDated = "Re: hello2023" ∧
    sortByYearDest [.header "subject"] exMsgDated
      ≠ sortByYearDestClaim [.header "subject"] exMsgDated :=
  ⟨by decide, by decide, by decide⟩

/-- C9 (amended): `SortByYear` destination resolution never fails: if
the date header parses, the destination is the raw (unrendered)
`dest-mailbox-base` text followed by the decimal digits of the parsed
year; if the date header is missing, empty or unparsable, it is the
base followed by the literal `unparsable-date`; and `report`/`invoke`
always succeed. -/
theorem sortByYear_dest_total (base : Template) (m : Message) (mb mid : String) :
    (∀ d, parsedateToDatetime (getHeaderValue m "date") = some d →
      sortByYearDest base m = templateRaw base ++ toString d.year) ∧
    (parsedateToDatetime (getHeaderValue m "date") = none →
      sortByYearDest base m = templateRaw base ++ "unparsable-date") ∧
    MAction.report (.sortByYearA base) mb mid m = .ok () ∧
    MAction.invoke (.sortByYearA base) mb mid m
      = .ok (.moveMessage mb (sortByYearDest base m) mid m) := by
  refine ⟨?_, ?_, rfl, rfl⟩
  · intro d hd
    simp [sortByYearDest, hd]
  · intro hd
    simp [sortByYearDest, hd]

/-- Witness for C9 (amended): the year bucket on a dated message and
the fallback bucket on a dateless message. -/
theorem sortByYear_dest_total_witness :
    sortByYearDest [.lit "archive-under-here/"] exMsgDated = "archive-under-here/2023" ∧
    sortByYearDest [.lit "archive-under-here/"] exMsgNoDate
      = "archive-under-here/unparsable-date" := by
  constructor
  · have h := (sortByYear_dest_total [.lit "archive-under-here/"] exMsgDated "INBOX" "1").1
      (PyDateTime.mk 2023 28396187 (some (-360))) (by decide)
    rw [h]; decide
  · have h := (sortByYear_dest_total [.lit "archive-under-here/"] exMsgNoDate "INBOX" "1").2.1
      (by decide)
    rw [h]; decide

/-- Every successful `handleMatch` produces one of three event shapes:
report only, report with a failed invoke, or report with one
successful invoke. -/
theorem handleMatch_shapes (cfg : Config) (dryRun dbg : Bool) (mb mid : String)
    (m : Message) (ad : Option ActionData) (res : MsgRes) (evs : List Ev)
    (h : handleMatch cfg dryRun dbg mb mid m ad = .ok (res, evs)) :
    evs = [.reported mb mid] ∨ evs = [.reported mb mid, .invokeFailed mb mid] ∨
    ∃ eff, evs = [.reported mb mid, .invoked eff] := by
  unfold handleMatch at h
  split at h
  · exact absurd h (by simp)
  · split at h
    · split at h
      · exact absurd h (by simp)
      · simp at h
        exact Or.inl h.2.symm
    · split at h
      · simp at h
        exact Or.inl h.2.symm
      · split at h
        · split at h
          · exact absurd h (by simp)
          · simp at h
            exact Or.inr (Or.inl h.2.symm)
        · simp at h
          exact Or.inr (Or.inr ⟨_, h.2.symm⟩)

/-- In dry-run mode a successful `handleMatch` only ever reports. -/
theorem handleMatch_dry_evs (cfg : Config) (dbg : Bool) (mb mid : String)
    (m : Message) (ad : Option ActionData) (res : MsgRes) (evs : List Ev)
    (h : handleMatch cfg true dbg mb mid m ad = .ok (res, evs)) :
    evs = [.reported mb mid] := by
  unfold handleMatch at h
  split at h
  · exact absurd h (by simp)
  · split at h
    · split at h
      · exact absurd h (by simp)
      · simp at h
        exact h.2.symm
    · simp at h
      exact h.2.symm

/-- In dry-run mode without debug, `handleMatch` succeeds with a
report-only trace whenever the action constructs. -/
theorem handleMatch_dry_nodbg (cfg : Config) (mb mid : String) (m : Message)
    (ad : Option ActionData) (act : MAction)
    (hf : actionsFactory ad cfg = .ok act) :
    ∃ res, handleMatch cfg true false mb mid m ad = .ok (res, [.reported mb mid]) := by
  unfold handleMatch
  rw [hf]
  cases hr : act.report mb mid m with
  | error e => exact ⟨.errored, by simp [hr]⟩
  | ok u => exact ⟨.processed, by simp [hr]⟩

/-- If action construction fails, `handleMatch` propagates the error. -/
theorem handleMatch_factory_error (cfg : Config) (dryRun dbg : Bool)
    (mb mid : String) (m : Message) (ad : Option ActionData) (e : String)
    (hf : actionsFactory ad cfg = .error e) :
    handleMatch cfg dryRun dbg mb mid m ad = .error e := by
  unfold handleMatch
  rw [hf]

/-- A message on which every rule checks falsy is recorded unmatched,
with no report and no invoke. -/
theorem processMessage_all_falsy (cfg : Config) (now : Int) (dryRun dbg : Bool)
    (mb mid : String) (m : Message) (rules : List (MRule × Option ActionData))
    (hall : ∀ p ∈ rules, RuleFalsy now m p.1) :
    processMessage cfg now dryRun dbg mb mid m rules
      = .ok (.unmatched, [.unmatchedMsg mb mid]) := by
  induction rules with
  | nil => rfl
  | cons p rest ih =>
    obtain ⟨r, ad⟩ := p
    obtain ⟨v, hv, hf⟩ := hall (r, ad) (by simp)
    simp only [processMessage]
    rw [hv]
    simp only [hf]
    exact ih (fun x hx => hall x (by simp [hx]))

/-- Scanning stops at the first truthy rule: the whole scan equals
`handleMatch` on that rule's action description, independently of the
rules that follow. -/
theorem processMessage_first_match (cfg : Config) (now : Int) (dryRun dbg : Bool)
    (mb mid : String) (m : Message) (pre : List (MRule × Option ActionData))
    (r : MRule × Option ActionData) (post : List (MRule × Option ActionData))
    (hpre : ∀ p ∈ pre, RuleFalsy now m p.1) (hr : RuleTruthy now m r.1) :
    processMessage cfg now dryRun dbg mb mid m (pre ++ r :: post)
      = handleMatch cfg dryRun dbg mb mid m r.2 := by
  induction pre with
  | nil =>
    obtain ⟨v, hv, ht⟩ := hr
    obtain ⟨r1, ad⟩ := r
    simp only [List.nil_append, processMessage]
    rw [hv]
    simp [ht]
  | cons s rest ih =>
    obtain ⟨v, hv, hf⟩ := hpre s (by simp)
    obtain ⟨s1, ad1⟩ := s
    simp only [List.cons_append, processMessage]
    rw [hv]
    simp only [hf]
    exact ih (fun x hx => hpre x (by simp [hx]))

/-- Any successful message scan calls `invoke` at most once. -/
theorem processMessage_invokeCalls_le_one (cfg : Config) (now : Int)
    (dryRun dbg : Bool) (mb mid : String) (m : Message)
    (rules : List (MRule × Option ActionData)) (res : MsgRes) (evs : List Ev)
    (h : processMessage cfg now dryRun dbg mb mid m rules = .ok (res, evs)) :
    invokeCalls evs ≤ 1 := by
  induction rules with
  | nil =>
    simp [processMessage] at h
    rw [← h.2]
    simp [invokeCalls, isInvokeCall]
  | cons p rest ih =>
    obtain ⟨r, ad⟩ := p
    simp only [processMessage] at h
    split at h
    · exact absurd h (by simp)
    · split at h
      · rcases handleMatch_shapes cfg dryRun dbg mb mid m ad res evs h with h1 | h1 | ⟨eff, h1⟩ <;>
          subst h1 <;> simp [invokeCalls, isInvokeCall]
      · exact ih h

/-- C1: for every message the pipeline invokes at most one action: any
successful scan contains at most one `invoke` call; if no rule checks
truthy, the message is recorded unmatched with neither report nor
invoke; and the scan stops at the first truthy rule - the outcome is
that rule's `handleMatch`, unchanged by whatever rules follow. -/
theorem first_match_wins :
    (∀ (cfg : Config) (now : Int) (dryRun dbg : Bool) (mb mid : String)
        (m : Message) (rules : List (MRule × Option ActionData))
        (res : MsgRes) (evs : List Ev),
        processMessage cfg now dryRun dbg mb mid m rules = .ok (res, evs) →
        invokeCalls evs ≤ 1) ∧
    (∀ (cfg : Config) (now : Int) (dryRun dbg : Bool) (mb mid : String)
        (m : Message) (rules : List (MRule × Option ActionData)),
        (∀ p ∈ rules, RuleFalsy now m p.1) →
        processMessage cfg now dryRun dbg mb mid m rules
          = .ok (.unmatched, [.unmatchedMsg mb mid])) ∧
    (∀ (cfg : Config) (now : Int) (dryRun dbg : Bool) (mb mid : String)
        (m : Message) (pre : List (MRule × Option ActionData))
        (r : MRule × Option ActionData) (post : List (MRule × Option ActionData)),
        (∀ p ∈ pre, RuleFalsy now m p.1) → RuleTruthy now m r.1 →
        processMessage cfg now dryRun dbg mb mid m (pre ++ r :: post)
          = handleMatch cfg dryRun dbg mb mid m r.2 ∧
        processMessage cfg now dryRun dbg mb mid m (pre ++ r :: post)
          = processMessage cfg now dryRun dbg mb mid m (pre ++ [r])) := by
  refine ⟨processMessage_invokeCalls_le_one, processMessage_all_falsy, ?_⟩
  intro cfg now dryRun dbg mb mid m pre r post hpre hr
  have h1 := processMessage_first_match cfg now dryRun dbg mb mid m pre r post hpre hr
  have h2 := processMessage_first_match cfg now dryRun dbg mb mid m pre r [] hpre hr
  exact ⟨h1, h1.trans h2.symm⟩

/-- Witness for C1 at concrete inputs: the second of three rules
matches (the third would raise if scanned), one delete is invoked; and
a no-match scan records the message unmatched. -/
theorem first_match_wins_witness :
    processMessage cfgNone 0 false false "INBOX" "1" exMsgDated
      ([(.headerExists "x-none", none)]
        ++ (.headerExists "subject", some (simpleAction "delete"))
        :: [(.stub (.error "boom"), none)])
      = .ok (.processed, [.reported "INBOX" "1", .invoked (.deleteMessage "INBOX" "1")]) ∧
    invokeCalls [.reported "INBOX" "1", .invoked (.deleteMessage "INBOX" "1")] ≤ 1 ∧
    processMessage cfgNone 0 false false "INBOX" "2" exMsgDated
      [(.headerExists "x-none", none)] = .ok (.unmatched, [.unmatchedMsg "INBOX" "2"]) := by
  refine ⟨?_, ?_, ?_⟩
  · have h := (first_match_wins).2.2 cfgNone 0 false false "INBOX" "1" exMsgDated
      [(.headerExists "x-none", none)]
      ((.headerExists "subject", some (simpleAction "delete")))
      [(.stub (.error "boom"), none)]
      (by intro p hp; simp at hp; subst hp; exact ⟨.bool false, by decide, rfl⟩)
      ⟨.bool true, by decide, rfl⟩
    exact h.1.trans (by decide)
  · exact (first_match_wins).1 cfgNone 0 false false "INBOX" "1" exMsgDated
      [((.headerExists "subject" : MRule), some (simpleAction "delete"))]
      .processed [.reported "INBOX" "1", .invoked (.deleteMessage "INBOX" "1")] (by decide)
  · exact (first_match_wins).2.1 cfgNone 0 false false "INBOX" "2" exMsgDated
      [(.headerExists "x-none", none)]
      (by intro p hp; simp at hp; subst hp; exact ⟨.bool false, by decide, rfl⟩)

/-- C2 counterexample: a rule matching the first of two messages names
an unknown action; the whole run comes back as that construction error
- the second message is never scanned and the mailbox is never
expunged - instead of the error being counted per-message and the run
continuing. -/
theorem construction_error_aborts_run_cex :
    processRules cfgNone 0 false false bFalse
      [(MailboxCfg.mk "INBOX" [(.headerExists "subject", some (simpleAction "bogus"))],
        [("1", exMsgDated), ("2", exMsgNoDate)])]
      = .error "ValueError: unrecognized rule action" := by decide

/-- If a later message's scan raises, the whole message loop raises:
nothing after it is processed. -/
theorem runMessages_error_after (cfg : Config) (now : Int) (dryRun dbg : Bool)
    (b : Nat → Bool) (mbc : MailboxCfg) (nxt : String × Message)
    (mpost : List (String × Message)) (e : String)
    (msgs0 : List (String × Message)) (qs : Nat) (evs0 : List Ev) (q0 : Nat)
    (hpre : runMessages cfg now dryRun dbg b mbc qs msgs0 = .ok (evs0, q0, false))
    (hq0 : b q0 = false)
    (hbad : processMessage cfg now dryRun dbg mbc.mname nxt.1 nxt.2 mbc.rules = .error e) :
    runMessages cfg now dryRun dbg b mbc qs (msgs0 ++ nxt :: mpost) = .error e := by
  obtain ⟨mid1, m1⟩ := nxt
  induction msgs0 generalizing qs evs0 with
  | nil =>
    simp only [runMessages] at hpre
    simp at hpre
    obtain ⟨h1, h2⟩ := hpre
    subst h2
    simp only [List.nil_append, runMessages]
    rw [if_neg (by simp [hq0]), hbad]
  | cons hd t ih =>
    obtain ⟨mid2, m2⟩ := hd
    simp only [List.cons_append]
    simp only [runMessages] at hpre ⊢
    split at hpre
    · exact absurd hpre (by simp)
    · next hb =>
      rw [if_neg hb]
      cases hp : processMessage cfg now dryRun dbg mbc.mname mid2 m2 mbc.rules with
      | error e2 =>
        rw [hp] at hpre
        exact absurd hpre (by simp)
      | ok r0 =>
        rw [hp] at hpre
        cases hrest : runMessages cfg now dryRun dbg b mbc (qs + 1) t with
        | error e2 =>
          rw [hrest] at hpre
          exact absurd hpre (by simp)
        | ok out =>
          obtain ⟨evs2, q2, hit⟩ := out
          rw [hrest] at hpre
          simp at hpre
          rw [hpre.2.1, hpre.2.2] at hrest
          have hih := ih (qs + 1) evs2 hrest
          rw [hih]

/-- C2 (amended): a failed action construction is NOT caught by the
per-message error handling (the factory call sits outside the try
block): the construction error propagates out of the message scan and
aborts the whole run - the remaining rules, messages and mailboxes are
not processed and the mailbox is not expunged. -/
theorem construction_error_aborts :
    (∀ (cfg : Config) (now : Int) (dryRun dbg : Bool) (mb mid : String)
        (m : Message) (pre : List (MRule × Option ActionData))
        (r : MRule × Option ActionData) (post : List (MRule × Option ActionData))
        (e : String),
        (∀ p ∈ pre, RuleFalsy now m p.1) → RuleTruthy now m r.1 →
        actionsFactory r.2 cfg = .error e →
        processMessage cfg now dryRun dbg mb mid m (pre ++ r :: post) = .error e) ∧
    (∀ (cfg : Config) (now : Int) (dryRun dbg : Bool) (b : Nat → Bool)
        (mbc : MailboxCfg) (msgs0 : List (String × Message)) (nxt : String × Message)
        (mpost : List (String × Message))
        (rest : List (MailboxCfg × List (String × Message)))
        (q : Nat) (evs0 : List Ev) (q0 : Nat) (e : String),
        b q = false →
        runMessages cfg now dryRun dbg b mbc (q + 1) msgs0 = .ok (evs0, q0, false) →
        b q0 = false →
        processMessage cfg now dryRun dbg mbc.mname nxt.1 nxt.2 mbc.rules = .error e →
        runMailboxes cfg now dryRun dbg b q ((mbc, msgs0 ++ nxt :: mpost) :: rest)
          = .error e) := by
  constructor
  · intro cfg now dryRun dbg mb mid m pre r post e hpre hr hf
    rw [processMessage_first_match cfg now dryRun dbg mb mid m pre r post hpre hr]
    exact handleMatch_factory_error cfg dryRun dbg mb mid m r.2 e hf
  · intro cfg now dryRun dbg b mbc msgs0 nxt mpost rest q evs0 q0 e hq hpre hq0 hbad
    have hmsg := runMessages_error_after cfg now dryRun dbg b mbc nxt mpost e msgs0
      (q + 1) evs0 q0 hpre hq0 hbad
    rw [show runMailboxes cfg now dryRun dbg b q ((mbc, msgs0 ++ nxt :: mpost) :: rest)
        = (if b q then .ok ([], q + 1)
           else match runMessages cfg now dryRun dbg b mbc (q + 1) (msgs0 ++ nxt :: mpost) with
           | .error e2 => .error e2
           | .ok (mevs, q2, _hit) =>
             match runMailboxes cfg now dryRun dbg b q2 rest with
             | .error e2 => .error e2
             | .ok (evs2, q3) =>
               .ok (.startMailbox mbc.mname :: mevs ++ [.expunged, .finishMailbox mbc.mname]
                 ++ evs2, q3)) from rfl]
    rw [if_neg (by simp [hq]), hmsg]

/-- Witness for C2 (amended): a two-message mailbox where the first
message is clean and the second triggers the unknown-action rule; the
run aborts with the construction error. -/
theorem construction_error_aborts_witness :
    runMailboxes cfgNone 0 false false bFalse 0
      [(MailboxCfg.mk "INBOX" [(.headerExists "to", some (simpleAction "bogus"))],
        [("1", exMsgNoDate)] ++ ("2", exMsgDated) :: []),
       (MailboxCfg.mk "Archive" [], [])]
      = .error "ValueError: unrecognized rule action" := by
  have h := (construction_error_aborts).2 cfgNone 0 false false bFalse
    (MailboxCfg.mk "INBOX" [(.headerExists "to", some (simpleAction "bogus"))])
    [("1", exMsgNoDate)] ("2", exMsgDated) []
    [(MailboxCfg.mk "Archive" [], [])] 0 [.unmatchedMsg "INBOX" "1"] 2
    "ValueError: unrecognized rule action" (by decide) (by decide) (by decide) (by decide)
  exact h

/-- In dry-run mode a successful message scan emits no invoke call. -/
theorem processMessage_dry_evs (cfg : Config) (now : Int) (dbg : Bool)
    (mb mid : String) (m : Message) (rules : List (MRule × Option ActionData))
    (res : MsgRes) (evs : List Ev)
    (h : processMessage cfg now true dbg mb mid m rules = .ok (res, evs)) :
    ∀ e ∈ evs, isDryEv e = true := by
  induction rules with
  | nil =>
    simp [processMessage] at h
    obtain ⟨h1, h2⟩ := h
    subst h2
    intro e he
    simp at he
    subst he
    rfl
  | cons p rest ih =>
    obtain ⟨r, ad⟩ := p
    simp only [processMessage] at h
    split at h
    · exact absurd h (by simp)
    · split at h
      · have hevs := handleMatch_dry_evs cfg dbg mb mid m ad res evs h
        subst hevs
        intro e he
        simp at he
        subst he
        rfl
      · exact ih h

/-- In dry-run mode a successful message loop emits no invoke call. -/
theorem runMessages_dry_evs (cfg : Config) (now : Int) (dbg : Bool)
    (b : Nat → Bool) (mbc : MailboxCfg) (msgs : List (String × Message))
    (qs : Nat) (evs : List Ev) (q2 : Nat) (hit : Bool)
    (h : runMessages cfg now true dbg b mbc qs msgs = .ok (evs, q2, hit)) :
    ∀ e ∈ evs, isDryEv e = true := by
  induction msgs generalizing qs evs q2 hit with
  | nil =>
    simp [runMessages] at h
    simp [h.1]
  | cons hd t ih =>
    obtain ⟨mid1, m1⟩ := hd
    simp only [runMessages] at h
    split at h
    · simp at h
      simp [h.1]
    · cases hp : processMessage cfg now true dbg mbc.mname mid1 m1 mbc.rules with
      | error e2 =>
        rw [hp] at h
        exact absurd h (by simp)
      | ok r0 =>
        rw [hp] at h
        cases hrest : runMessages cfg now true dbg b mbc (qs + 1) t with
        | error e2 =>
          rw [hrest] at h
          exact absurd h (by simp)
        | ok out =>
          obtain ⟨evs2, q3, hit2⟩ := out
          rw [hrest] at h
          simp at h
          rw [← h.1]
          intro e he
          rcases List.mem_append.mp he with h1 | h1
          · exact processMessage_dry_evs cfg now dbg mbc.mname mid1 m1 mbc.rules r0.1 r0.2
              (by rw [hp]) e h1
          · exact ih (qs + 1) evs2 q3 hit2 hrest e h1

/-- In dry-run mode a successful run emits no invoke call. -/
theorem runMailboxes_dry_evs (cfg : Config) (now : Int) (dbg : Bool)
    (b : Nat → Bool) (mbs : List (MailboxCfg × List (String × Message)))
    (qs : Nat) (evs : List Ev) (q2 : Nat)
    (h : runMailboxes cfg now true dbg b qs mbs = .ok (evs, q2)) :
    ∀ e ∈ evs, isDryEv e = true := by
  induction mbs generalizing qs evs q2 with
  | nil =>
    simp [runMailboxes] at h
    simp [h.1]
  | cons hd rest ih =>
    obtain ⟨mbc, msgs⟩ := hd
    simp only [runMailboxes] at h
    split at h
    · simp at h
      simp [h.1]
    · cases hmsg : runMessages cfg now true dbg b mbc (qs + 1) msgs with
      | error e2 =>
        rw [hmsg] at h
        exact absurd h (by simp)
      | ok out =>
        obtain ⟨mevs, q3, hit⟩ := out
        rw [hmsg] at h
        simp at h
        cases hrest : runMailboxes cfg now true dbg b q3 rest with
        | error e2 =>
          rw [hrest] at h
          exact absurd h (by simp)
        | ok out2 =>
          obtain ⟨evs2, q4⟩ := out2
          rw [hrest] at h
          simp at h
          rw [← h.1]
          intro e he
          rcases List.mem_cons.mp he with rfl | he2
          · rfl
          · rcases List.mem_append.mp he2 with he3 | he3
            · exact runMessages_dry_evs cfg now dbg b mbc msgs (qs + 1) mevs q3 hit hmsg e he3
            · rcases List.mem_cons.mp he3 with rfl | he4
              · rfl
              · rcases List.mem_cons.mp he4 with rfl | he5
                · rfl
                · exact ih q3 evs2 q4 hrest e he5

/-- Expunging a mailbox with no pending deletions changes nothing. -/
theorem expungeBox_no_pending (bx : MailboxState) (h : bx.pending = []) :
    expungeBoxState bx = bx := by
  obtain ⟨ms, fl, rd, pd⟩ := bx
  simp at h
  subst h
  unfold expungeBoxState
  have hf : ms.filter (fun p => ! List.contains [] p.1) = ms := by
    apply List.filter_eq_self.mpr
    intro a _
    rfl
  rw [hf]

/-- Expunging a backend with no pending deletions changes nothing. -/
theorem expungeAll_no_pending (s : ClientState) (h : noPending s) : expungeAll s = s := by
  obtain ⟨bs⟩ := s
  unfold expungeAll
  simp only [ClientState.mk.injEq]
  induction bs with
  | nil => rfl
  | cons p t ih =>
    have h1 := expungeBox_no_pending p.2 (h p (by simp))
    simp [h1]
    exact ih (fun q hq => h q (by simp [hq]))

/-- A dry-run event leaves a pending-free backend state unchanged. -/
theorem applyEv_dry_id (s : ClientState) (hs : noPending s) (e : Ev)
    (he : isDryEv e = true) : applyEv s e = s := by
  cases e with
  | startMailbox n => rfl
  | reported a b2 => rfl
  | invoked eff => exact absurd he (by simp [isDryEv])
  | invokeFailed a b2 => exact absurd he (by simp [isDryEv])
  | unmatchedMsg a b2 => rfl
  | expunged => exact expungeAll_no_pending s hs
  | finishMailbox n => rfl

/-- A trace of individually state-preserving events preserves state. -/
theorem applyEvents_id (s : ClientState) (evs : List Ev)
    (h : ∀ e ∈ evs, applyEv s e = s) : applyEvents s evs = s := by
  induction evs with
  | nil => rfl
  | cons e t ih =>
    rw [show applyEvents s (e :: t) = applyEvents (applyEv s e) t from rfl]
    rw [h e (by simp)]
    exact ih (fun x hx => h x (by simp [hx]))

/-- A trace of dry events has no invoke call. -/
theorem invokeCalls_zero_of_dry (evs : List Ev) (h : ∀ e ∈ evs, isDryEv e = true) :
    invokeCalls evs = 0 := by
  unfold invokeCalls
  rw [List.countP_eq_zero]
  intro e he
  have h2 := h e he
  cases e <;> simp [isInvokeCall] <;> simp [isDryEv] at h2

/-- C7: in dry-run mode a successful run contains no `invoke` call at
all, and - starting from a session state with no pending deletions -
the backend state after replaying the whole run's client calls
(including the unconditional per-mailbox `expunge`) is unchanged;
moreover for every matched message whose action constructs, `report`
is called. -/
theorem dry_run_frame :
    (∀ (cfg : Config) (now : Int) (dbg : Bool) (b : Nat → Bool)
        (mbs : List (MailboxCfg × List (String × Message))) (evs : List Ev) (q : Nat),
        processRules cfg now true dbg b mbs = .ok (evs, q) →
        invokeCalls evs = 0 ∧ ∀ s, noPending s → applyEvents s evs = s) ∧
    (∀ (cfg : Config) (now : Int) (mb mid : String) (m : Message)
        (pre : List (MRule × Option ActionData)) (r : MRule × Option ActionData)
        (post : List (MRule × Option ActionData)) (act : MAction),
        (∀ p ∈ pre, RuleFalsy now m p.1) → RuleTruthy now m r.1 →
        actionsFactory r.2 cfg = .ok act →
        ∃ res, processMessage cfg now true false mb mid m (pre ++ r :: post)
          = .ok (res, [.reported mb mid])) := by
  constructor
  · intro cfg now dbg b mbs evs q h
    have hdry := runMailboxes_dry_evs cfg now dbg b mbs 0 evs q h
    refine ⟨invokeCalls_zero_of_dry evs hdry, ?_⟩
    intro s hs
    exact applyEvents_id s evs (fun e he => applyEv_dry_id s hs e (hdry e he))
  · intro cfg now mb mid m pre r post act hpre hr hf
    rw [processMessage_first_match cfg now true false mb mid m pre r post hpre hr]
    exact handleMatch_dry_nodbg cfg mb mid m r.2 act hf

/-- Witness for C7: a concrete dry run over two messages (one match,
one no-match) reports once, invokes nothing, and leaves a concrete
pending-free backend state unchanged. -/
theorem dry_run_frame_witness :
    invokeCalls [.startMailbox "INBOX", .reported "INBOX" "1", .unmatchedMsg "INBOX" "2",
      .expunged, .finishMailbox "INBOX"] = 0 ∧
    applyEvents exState [.startMailbox "INBOX", .reported "INBOX" "1",
      .unmatchedMsg "INBOX" "2", .expunged, .finishMailbox "INBOX"] = exState ∧
    (∃ res, processMessage cfgNone 0 true false "INBOX" "1" exMsgDated
      ([] ++ ((.headerExists "to" : MRule), some (simpleAction "delete")) :: [])
      = .ok (res, [.reported "INBOX" "1"])) := by
  have h := (dry_run_frame).1 cfgNone 0 false bFalse
    [(MailboxCfg.mk "INBOX" [(.headerExists "to", some (simpleAction "delete"))],
      [("1", exMsgDated), ("2", exMsgNoDate)])]
    [.startMailbox "INBOX", .reported "INBOX" "1", .unmatchedMsg "INBOX" "2",
      .expunged, .finishMailbox "INBOX"] 3 (by decide)
  refine ⟨h.1, h.2 exState (by unfold noPending; decide), ?_⟩
  exact (dry_run_frame).2 cfgNone 0 "INBOX" "1" exMsgDated []
    ((.headerExists "to" : MRule), some (simpleAction "delete")) [] .deleteA
    (by intro p hp; simp at hp) ⟨.bool true, by decide, rfl⟩ (by rfl)

/-- Once the message loop has completed a prefix without interruption
and the flag is set, iterating further messages stops at the very next
poll: the events stay those of the prefix and the loop reports the
interruption. -/
theorem runMessages_hit_append (cfg : Config) (now : Int) (dryRun dbg : Bool)
    (b : Nat → Bool) (mbc : MailboxCfg) (nxt : String × Message)
    (mpost : List (String × Message))
    (msgs0 : List (String × Message)) (qs : Nat) (evs0 : List Ev) (q0 : Nat)
    (hpre : runMessages cfg now dryRun dbg b mbc qs msgs0 = .ok (evs0, q0, false))
    (hq0 : b q0 = true) :
    runMessages cfg now dryRun dbg b mbc qs (msgs0 ++ nxt :: mpost)
      = .ok (evs0, q0 + 1, true) := by
  obtain ⟨mid1, m1⟩ := nxt
  induction msgs0 generalizing qs evs0 with
  | nil =>
    simp only [runMessages] at hpre
    simp at hpre
    obtain ⟨h1, h2⟩ := hpre
    subst h2
    rw [h1]
    simp only [List.nil_append, runMessages]
    rw [if_pos hq0]
  | cons hd t ih =>
    obtain ⟨mid2, m2⟩ := hd
    simp only [List.cons_append]
    simp only [runMessages] at hpre ⊢
    split at hpre
    · simp at hpre
    · next hb =>
      rw [if_neg hb]
      cases hp : processMessage cfg now dryRun dbg mbc.mname mid2 m2 mbc.rules with
      | error e2 =>
        rw [hp] at hpre
        exact absurd hpre (by simp)
      | ok r0 =>
        rw [hp] at hpre
        cases hrest : runMessages cfg now dryRun dbg b mbc (qs + 1) t with
        | error e2 =>
          rw [hrest] at hpre
          exact absurd hpre (by simp)
        | ok out =>
          obtain ⟨evs2, q2, hit⟩ := out
          rw [hrest] at hpre
          simp at hpre
          rw [hpre.2.1, hpre.2.2] at hrest
          rw [ih (qs + 1) evs2 hrest]
          simp [hpre.1]

/-- C10: if the cancellation flag (monotone once raised) becomes set
while the pipeline is iterating a mailbox's messages, the run still
calls `expunge()` and finishes that mailbox, the messages after the
interruption point are not processed, and no subsequent mailbox is
started: the run's whole trace is the partial mailbox trace closed by
`expunge`/finish. -/
theorem interruption_expunges_and_stops (cfg : Config) (now : Int) (dryRun dbg : Bool)
    (b : Nat → Bool) (mbc : MailboxCfg) (msgsPre : List (String × Message))
    (nxt : String × Message) (msgsPost : List (String × Message))
    (rest : List (MailboxCfg × List (String × Message)))
    (q q0 : Nat) (evs0 : List Ev)
    (hmono : ∀ i j : Nat, i ≤ j → b i = true → b j = true)
    (hq : b q = false)
    (hpre : runMessages cfg now dryRun dbg b mbc (q + 1) msgsPre = .ok (evs0, q0, false))
    (hhit : b q0 = true) :
    ∃ qf, runMailboxes cfg now dryRun dbg b q ((mbc, msgsPre ++ nxt :: msgsPost) :: rest)
      = .ok (.startMailbox mbc.mname :: evs0 ++ [.expunged, .finishMailbox mbc.mname], qf) := by
  have hmsgs := runMessages_hit_append cfg now dryRun dbg b mbc nxt msgsPost msgsPre
    (q + 1) evs0 q0 hpre hhit
  simp only [runMailboxes]
  rw [if_neg (by simp [hq]), hmsgs]
  cases rest with
  | nil => exact ⟨q0 + 1, by simp [runMailboxes]⟩
  | cons hd rest2 =>
    obtain ⟨mb2, msgs2⟩ := hd
    have hb2 : b (q0 + 1) = true := hmono q0 (q0 + 1) (Nat.le_succ q0) hhit
    exact ⟨q0 + 2, by simp [runMailboxes, hb2]⟩

/-- Witness for C10: the flag raises at the second poll inside the
first mailbox; the second message and the second mailbox are skipped
but the first mailbox is still expunged and finished. -/
theorem interruption_expunges_and_stops_witness :
    ∃ qf, runMailboxes cfgNone 0 false false (fun n => decide (2 ≤ n)) 0
      [(MailboxCfg.mk "INBOX" [],
        [("1", Message.mk [("Subject", "a")])] ++ ("2", Message.mk [("Subject", "b")]) :: []),
       (MailboxCfg.mk "Archive" [], [("3", Message.mk [])])]
      = .ok (.startMailbox "INBOX" :: [.unmatchedMsg "INBOX" "1"]
          ++ [.expunged, .finishMailbox "INBOX"], qf) := by
  exact interruption_expunges_and_stops cfgNone 0 false false (fun n => decide (2 ≤ n))
    (MailboxCfg.mk "INBOX" []) [("1", Message.mk [("Subject", "a")])]
    ("2", Message.mk [("Subject", "b")]) []
    [(MailboxCfg.mk "Archive" [], [("3", Message.mk [])])]
    0 2 [.unmatchedMsg "INBOX" "1"]
    (by intro i j hij hbi; simp at hbi ⊢; omega) (by decide) (by decide) (by decide)

end ImapAutofiler
